import Mathlib

/-!
Verification development for the `contenox/ollamatokenizer` repository.

The repository exposes tokenization-as-a-service: given a model identifier
and a text, it returns the integer token sequence (or its count) produced
by the tokenizer associated with that model.  The core library file of the
repository (model resolver, tokenizer cache, chunked tokenizer, facade) is
not present among the source files; only its tests, the HTTP server and the
packaging files are.  Definitions of that core are therefore modelled from
the specification, as marked in their doc comments; the HTTP server handler
is embedded directly from `cmd/httpserver/main.go`.

Text is modelled as `List Char`, one element per byte-sized unit, with
`List.length` standing for Go's `len` on strings.  Token ids are `Int`
(Go `int`).  The opaque tokenizer engine collaborator is a parameter of
type `Engine`; a failing engine call is `none`.  Fetch-plus-construct of an
engine for a canonical name is a parameter `load : String → Option Engine`;
`none` stands for a load failure.
-/

/-- Modelled from the spec: the error kinds of section 7 — `UnknownModel`
(resolution failed, no match and no usable fallback), `LoadFailure` (fetch
or engine-construction error), `EngineFailure` (the engine rejected a
chunk). -/
inductive TokenizerError where
  | UnknownModel
  | LoadFailure
  | EngineFailure
deriving DecidableEq, Repr

/-- A tokenizer engine: given a text chunk, deterministically return token
ids, or fail (`none`). -/
def Engine : Type := List Char → Option (List Int)

/-- Modelled from the spec: construction-time configuration of the
tokenizer facade (section 4.6 / 6) — the registry mapping canonical model
name to source locator, the static alias table (pairs of informal spelling
and canonical name, first-declared wins), and the optional fallback model
name.  Locator strings are opaque here: loading is abstracted by a `load`
parameter, so only registry key membership matters to resolution. -/
structure TokenizerConfig where
  registry : List (String × String)
  aliases : List (String × String)
  fallback : Option String

/-- Membership of a name among the registry's keys
(`lookup(name) -> (locator, found)` restricted to `found`). -/
def isRegistryKey (cfg : TokenizerConfig) (name : String) : Bool :=
  cfg.registry.any (fun p => p.1 == name)

/-- Modelled from the spec: the Alias Table's `normalize(requested)`
(section 4.1) — pure exact-string lookup, first matching rule wins,
returns the input unchanged if no rule matches. -/
def normalizeAlias (aliases : List (String × String)) (requested : String) : String :=
  match aliases.find? (fun r => r.1 == requested) with
  | some r => r.2
  | none => requested

/-- Modelled from the spec: the Model Resolver's `resolve(requested)`
(section 4.3), stopping at the first success: (1) exact registry key;
(2) alias-table rewrite then registry match; (3) configured fallback name
if it resolves via step 1/2; (4) failure with `UnknownModel`. -/
def resolve (cfg : TokenizerConfig) (requested : String) : Except TokenizerError String :=
  if isRegistryKey cfg requested then .ok requested
  else
    let n := normalizeAlias cfg.aliases requested
    if isRegistryKey cfg n then .ok n
    else
      match cfg.fallback with
      | some f =>
        if isRegistryKey cfg f then .ok f
        else
          let nf := normalizeAlias cfg.aliases f
          if isRegistryKey cfg nf then .ok nf
          else .error .UnknownModel
      | none => .error .UnknownModel

/-- Modelled from the spec: `OptimalTokenizerModel(basedOnName)` exposes
the Resolver directly (section 4.6). -/
def OptimalTokenizerModel (cfg : TokenizerConfig) (basedOnName : String) :
    Except TokenizerError String :=
  resolve cfg basedOnName

/-- Modelled from the spec: the engine's fixed safe processing ceiling,
a size constant shared by all models; the test
`TestCountTokensLargeInput` pins it at 16 KiB (`16*1024` bytes). -/
def maxChunkSize : Nat := 16 * 1024

/-- Whitespace test used when choosing chunk boundaries. -/
def isSpaceChar (c : Char) : Bool :=
  c == ' ' || c == '\t' || c == '\n' || c == '\r'

/-- Index of the last whitespace character of a list, if any. -/
def lastSpace : List Char → Option Nat
  | [] => none
  | c :: cs =>
    match lastSpace cs with
    | some i => some (i + 1)
    | none => if isSpaceChar c then some 0 else none

/-- Modelled from the spec: where to cut the next chunk of an over-ceiling
text — just after the whitespace boundary nearest to the ceiling within
the first `maxChunkSize` characters, or at the ceiling itself when no
whitespace occurs there (section 4.5, best-effort boundary choice). -/
def chunkSplit (s : List Char) : Nat :=
  match lastSpace (s.take maxChunkSize) with
  | some i => i + 1
  | none => maxChunkSize

theorem lastSpace_lt_length : ∀ (l : List Char) (i : Nat), lastSpace l = some i → i < l.length := by
  intro l
  induction l with
  | nil => intro i h; simp [lastSpace] at h
  | cons c cs ih =>
    intro i h
    simp only [lastSpace] at h
    cases hcs : lastSpace cs with
    | some j =>
      rw [hcs] at h
      cases h
      have := ih j hcs
      simp only [List.length_cons]
      omega
    | none =>
      rw [hcs] at h
      by_cases hc : isSpaceChar c = true
      · simp [hc] at h
        cases h
        simp
      · simp [hc] at h

theorem chunkSplit_pos (s : List Char) : 0 < chunkSplit s := by
  unfold chunkSplit
  cases h : lastSpace (s.take maxChunkSize) with
  | some i => simp
  | none => simp [maxChunkSize]

theorem chunkSplit_le (s : List Char) : chunkSplit s ≤ maxChunkSize := by
  unfold chunkSplit
  cases h : lastSpace (s.take maxChunkSize) with
  | some i =>
    have hi := lastSpace_lt_length _ _ h
    simp only [List.length_take] at hi
    show i + 1 ≤ maxChunkSize
    omega
  | none => simp

/-- Modelled from the spec: split an over-ceiling text into ordered,
non-overlapping chunks not exceeding the ceiling whose concatenation is
the original text (section 4.5).  A text within the ceiling is a single
chunk. -/
def chunkText (s : List Char) : List (List Char) :=
  if s.length ≤ maxChunkSize then [s]
  else
    let k := chunkSplit s
    s.take k :: chunkText (s.drop k)
termination_by s.length
decreasing_by
  have hk := chunkSplit_pos s
  have : ¬ s.length ≤ maxChunkSize := by assumption
  simp only [List.length_drop]
  omega

/-- Tokenize each chunk in original order, failing as a whole when the
engine rejects any chunk (`List.mapM` over `Option`, written out). -/
def chunksTokens (engine : Engine) : List (List Char) → Option (List (List Int))
  | [] => some []
  | c :: cs =>
    match engine c, chunksTokens engine cs with
    | some ids, some rest => some (ids :: rest)
    | _, _ => none

/-- Modelled from the spec: the Chunked Tokenizer's
`tokenizeAll(engine, text)` (section 4.5) — empty text yields a
zero-length sequence and no error; text within the ceiling is tokenized
directly in one engine call; longer text is split into chunks, each chunk
tokenized in original order, and the id sequences concatenated; a failure
on any chunk aborts the whole call with `EngineFailure`. -/
def tokenizeAll (engine : Engine) (text : List Char) : Except TokenizerError (List Int) :=
  if text.isEmpty then .ok []
  else if text.length ≤ maxChunkSize then
    match engine text with
    | some ids => .ok ids
    | none => .error .EngineFailure
  else
    match chunksTokens engine (chunkText text) with
    | some idss => .ok idss.flatten
    | none => .error .EngineFailure

/-- Modelled from the spec: the facade's
`Tokenize(model, text)` (section 4.6) — resolve the model, get-or-load
the engine (a failed load surfaces as `LoadFailure`), chunked-tokenize. -/
def Tokenize (cfg : TokenizerConfig) (load : String → Option Engine)
    (model : String) (text : List Char) : Except TokenizerError (List Int) :=
  match resolve cfg model with
  | .error e => .error e
  | .ok canonical =>
    match load canonical with
    | none => .error .LoadFailure
    | some engine => tokenizeAll engine text

/-- Modelled from the spec: `CountTokens(model, text)` is the length of
the `Tokenize` result — never computed independently (sections 4.5, 4.6). -/
def CountTokens (cfg : TokenizerConfig) (load : String → Option Engine)
    (model : String) (text : List Char) : Except TokenizerError Nat :=
  (Tokenize cfg load model text).map List.length

/-- Modelled from the spec: `AvailableModels()` returns the Registry's
known canonical names (section 4.6). -/
def AvailableModels (cfg : TokenizerConfig) : List String :=
  cfg.registry.map (fun p => p.1)

/-- Modelled from the spec: the per-key states of a Tokenizer Cache entry
(section 3, CacheEntry); the wait handle, engine handle and timestamps are
irrelevant to the transition structure and omitted. -/
inductive CacheState where
  | NotLoaded
  | Loading
  | Loaded
  | Failed
deriving DecidableEq, Repr

/-- Modelled from the spec: the per-key state machine of the Tokenizer
Cache (section 4.4) — `NotLoaded → Loading → {Loaded | Failed}`, and
`Failed → Loading` as the permitted retry re-transition. -/
inductive CacheStep : CacheState → CacheState → Prop where
  | startLoad : CacheStep .NotLoaded .Loading
  | loadOk : CacheStep .Loading .Loaded
  | loadFail : CacheStep .Loading .Failed
  | retry : CacheStep .Failed .Loading

/-- The response type of the HTTP `/tokenize` endpoint, embedded from
`cmd/httpserver/main.go` (`tokenizeResponse`): `Tokens []int` and
`Count int`. -/
structure tokenizeResponse where
  Tokens : List Int
  Count : Int
deriving DecidableEq, Repr

/-- The `/tokenize` handler body of `cmd/httpserver/main.go` (lines
78-93), embedded over the outcome of the `tokenizer.Tokenize` call: on
error the handler writes an HTTP 500 and no JSON body (`none`); on
success it responds with `tokenizeResponse{Tokens: tokens, Count:
len(tokens)}`. -/
def handleTokenize (result : Except TokenizerError (List Int)) : Option tokenizeResponse :=
  match result with
  | .error _ => none
  | .ok tokens => some { Tokens := tokens, Count := (tokens.length : Int) }

/-- Modelled from the spec: registry keys observed in the repository's
tests — canonical names `tiny`, `granite-embedding-30m`, `llama-3.2`,
`phi-3`; the locator strings are opaque to every claim and stand in for
the built-in source locations. -/
def demoRegistry : List (String × String) :=
  [("tiny", "source-of:tiny"),
   ("granite-embedding-30m", "source-of:granite-embedding-30m"),
   ("llama-3.2", "source-of:llama-3.2"),
   ("phi-3", "source-of:phi-3")]

/-- Modelled from the spec: alias rules observed in the tests —
`llama3.2 ↦ llama-3.2` and `phi3 ↦ phi-3` (family names missing a
separator map to the separator-containing canonical form). -/
def demoAliases : List (String × String) :=
  [("llama3.2", "llama-3.2"), ("phi3", "phi-3")]

/-- Configuration with no fallback model. -/
def cfgNoFallback : TokenizerConfig :=
  { registry := demoRegistry, aliases := demoAliases, fallback := none }

/-- Configuration with fallback model `tiny`, as in the tests. -/
def cfgFallbackTiny : TokenizerConfig :=
  { registry := demoRegistry, aliases := demoAliases, fallback := some "tiny" }

/-- A concrete deterministic engine for witnesses: one token per
character, the character code. -/
def demoEngine : Engine := fun s => some (s.map (fun c => (c.toNat : Int)))

/-- A concrete loader for witnesses: every registry key of `demoRegistry`
loads `demoEngine`; any other name fails to load. -/
def demoLoad : String → Option Engine := fun n =>
  if demoRegistry.any (fun p => p.1 == n) then some demoEngine else none

theorem chunkText_flatten (s : List Char) : (chunkText s).flatten = s := by
  rw [chunkText]
  split
  · simp
  · have ih := chunkText_flatten (s.drop (chunkSplit s))
    simp only [List.flatten_cons, ih, List.take_append_drop]
termination_by s.length
decreasing_by
  have hk := chunkSplit_pos s
  have : ¬ s.length ≤ maxChunkSize := by assumption
  simp only [List.length_drop]
  omega

theorem chunkText_mem_le (s : List Char) :
    ∀ c ∈ chunkText s, c.length ≤ maxChunkSize := by
  rw [chunkText]
  split
  · intro c hc
    simp only [List.mem_singleton] at hc
    subst hc
    assumption
  · intro c hc
    simp only [List.mem_cons] at hc
    rcases hc with hc | hc
    · subst hc
      have := chunkSplit_le s
      simp only [List.length_take]
      omega
    · exact chunkText_mem_le (s.drop (chunkSplit s)) c hc
termination_by s.length
decreasing_by
  have hk := chunkSplit_pos s
  have : ¬ s.length ≤ maxChunkSize := by assumption
  simp only [List.length_drop]
  omega

theorem chunkText_ne_nil (s : List Char) : chunkText s ≠ [] := by
  rw [chunkText]
  split
  · simp
  · simp

theorem chunksTokens_forall2 (engine : Engine) :
    ∀ (cs : List (List Char)) (idss : List (List Int)),
      chunksTokens engine cs = some idss →
      List.Forall₂ (fun c ids => engine c = some ids) cs idss := by
  intro cs
  induction cs with
  | nil =>
    intro idss h
    simp only [chunksTokens] at h
    cases h
    exact List.Forall₂.nil
  | cons c cs ih =>
    intro idss h
    simp only [chunksTokens] at h
    cases he : engine c with
    | none => rw [he] at h; exact absurd h (by simp)
    | some ids =>
      rw [he] at h
      cases hcs : chunksTokens engine cs with
      | none => rw [hcs] at h; exact absurd h (by simp)
      | some rest =>
        rw [hcs] at h
        simp only [Option.some.injEq] at h
        subst h
        exact List.Forall₂.cons he (ih rest hcs)

theorem chunksTokens_none_of_mem (engine : Engine) :
    ∀ (cs : List (List Char)), (∃ c ∈ cs, engine c = none) →
      chunksTokens engine cs = none := by
  intro cs
  induction cs with
  | nil => intro h; simp at h
  | cons c cs ih =>
    intro h
    rcases h with ⟨c0, hc0, hfail⟩
    simp only [List.mem_cons] at hc0
    rcases hc0 with hc0 | hc0
    · subst hc0
      simp only [chunksTokens, hfail]
    · have := ih ⟨c0, hc0, hfail⟩
      simp only [chunksTokens, this]
      cases engine c <;> rfl

theorem resolve_key (cfg : TokenizerConfig) (r : String)
    (h : isRegistryKey cfg r = true) : resolve cfg r = .ok r := by
  unfold resolve
  simp [h]

theorem resolve_aliased (cfg : TokenizerConfig) (r : String)
    (h1 : isRegistryKey cfg r = false)
    (h2 : isRegistryKey cfg (normalizeAlias cfg.aliases r) = true) :
    resolve cfg r = .ok (normalizeAlias cfg.aliases r) := by
  unfold resolve
  simp [h1, h2]

theorem resolve_fallback_key (cfg : TokenizerConfig) (r f : String)
    (h1 : isRegistryKey cfg r = false)
    (h2 : isRegistryKey cfg (normalizeAlias cfg.aliases r) = false)
    (h3 : cfg.fallback = some f)
    (h4 : isRegistryKey cfg f = true) :
    resolve cfg r = .ok f := by
  unfold resolve
  simp [h1, h2, h3, h4]

theorem resolve_no_fallback (cfg : TokenizerConfig) (r : String)
    (h1 : isRegistryKey cfg r = false)
    (h2 : isRegistryKey cfg (normalizeAlias cfg.aliases r) = false)
    (h3 : cfg.fallback = none) :
    resolve cfg r = .error .UnknownModel := by
  unfold resolve
  simp [h1, h2, h3]

theorem Tokenize_resolved (cfg : TokenizerConfig) (load : String → Option Engine)
    (m c : String) (t : List Char) (h : resolve cfg m = .ok c) :
    Tokenize cfg load m t =
      (match load c with
       | none => .error .LoadFailure
       | some engine => tokenizeAll engine t) := by
  unfold Tokenize
  rw [h]

theorem tokenizeAll_short (e : Engine) (t : List Char) (ids : List Int)
    (h0 : t ≠ []) (h1 : t.length ≤ maxChunkSize) (h2 : e t = some ids) :
    tokenizeAll e t = .ok ids := by
  unfold tokenizeAll
  have he : t.isEmpty = false := by
    cases t with
    | nil => exact absurd rfl h0
    | cons a l => rfl
  simp [he, h1, h2]

theorem tokenizeAll_chunked (e : Engine) (t : List Char) (idss : List (List Int))
    (h1 : maxChunkSize < t.length) (h2 : chunksTokens e (chunkText t) = some idss) :
    tokenizeAll e t = .ok idss.flatten := by
  unfold tokenizeAll
  have he : t.isEmpty = false := by
    cases t with
    | nil => simp [maxChunkSize] at h1
    | cons a l => rfl
  have hle : ¬ t.length ≤ maxChunkSize := by omega
  simp [he, hle, h2]

theorem tokenizeAll_chunked_fail (e : Engine) (t : List Char)
    (h1 : maxChunkSize < t.length) (h2 : chunksTokens e (chunkText t) = none) :
    tokenizeAll e t = .error .EngineFailure := by
  unfold tokenizeAll
  have he : t.isEmpty = false := by
    cases t with
    | nil => simp [maxChunkSize] at h1
    | cons a l => rfl
  have hle : ¬ t.length ≤ maxChunkSize := by omega
  simp [he, hle, h2]

/-- C1: for every model `m` and text `t`, if both calls succeed,
`CountTokens(m, t)` equals the length of the sequence returned by
`Tokenize(m, t)`. -/
theorem countTokens_eq_tokenize_length (cfg : TokenizerConfig)
    (load : String → Option Engine) (m : String) (t : List Char)
    (ids : List Int) (n : Nat)
    (h1 : Tokenize cfg load m t = .ok ids)
    (h2 : CountTokens cfg load m t = .ok n) :
    n = ids.length := by
  unfold CountTokens at h2
  rw [h1] at h2
  simp only [Except.map] at h2
  cases h2
  rfl

theorem countTokens_eq_tokenize_length_witness :
    (2 : Nat) = ([(104 : Int), 105]).length :=
  countTokens_eq_tokenize_length cfgNoFallback demoLoad "tiny" ['h', 'i']
    [104, 105] 2 rfl rfl

/-- C2: for every text `t`, `Tokenize(u, t)` with `u` matching no registry
key and no alias fails with `UnknownModel` when no fallback model is
configured, and returns the fallback model's tokenization of `t` (so it
succeeds whenever that tokenization succeeds) when a fallback registry key
is configured. -/
theorem tokenize_unknown_model (cfg : TokenizerConfig)
    (load : String → Option Engine) (u : String) (t : List Char)
    (hk : isRegistryKey cfg u = false)
    (hn : isRegistryKey cfg (normalizeAlias cfg.aliases u) = false) :
    (cfg.fallback = none → Tokenize cfg load u t = .error .UnknownModel) ∧
    (∀ f, cfg.fallback = some f → isRegistryKey cfg f = true →
      Tokenize cfg load u t = Tokenize cfg load f t) ∧
    (∀ f engine ids, cfg.fallback = some f → isRegistryKey cfg f = true →
      load f = some engine → tokenizeAll engine t = .ok ids →
      Tokenize cfg load u t = .ok ids) := by
  refine ⟨?_, ?_, ?_⟩
  · intro hf
    unfold Tokenize
    rw [resolve_no_fallback cfg u hk hn hf]
  · intro f hf hkey
    rw [Tokenize_resolved cfg load u f t (resolve_fallback_key cfg u f hk hn hf hkey),
      Tokenize_resolved cfg load f f t (resolve_key cfg f hkey)]
  · intro f engine ids hf hkey hload htok
    rw [Tokenize_resolved cfg load u f t (resolve_fallback_key cfg u f hk hn hf hkey), hload]
    exact htok

theorem tokenize_unknown_model_witness :
    Tokenize cfgNoFallback demoLoad "no-such-model" ['x'] = .error .UnknownModel ∧
    Tokenize cfgFallbackTiny demoLoad "no-such-model" ['x'] =
      Tokenize cfgFallbackTiny demoLoad "tiny" ['x'] :=
  ⟨(tokenize_unknown_model cfgNoFallback demoLoad "no-such-model" ['x']
      (by decide) (by decide)).1 rfl,
   (tokenize_unknown_model cfgFallbackTiny demoLoad "no-such-model" ['x']
      (by decide) (by decide)).2.1 "tiny" rfl (by decide)⟩

/-- C4: `resolve` applies exactly the pipeline registry-key / alias
rewrite / fallback / failure, stopping at the first success; and the
concrete scenarios — `llama3.2 ↦ llama-3.2`, `phi3 ↦ phi-3`,
`nonexistent-model ↦ tiny` under fallback `tiny`, and
`granite-embedding-30m` resolves to itself. -/
theorem resolve_pipeline :
    (∀ (cfg : TokenizerConfig) (r : String),
      isRegistryKey cfg r = true → resolve cfg r = .ok r) ∧
    (∀ (cfg : TokenizerConfig) (r : String),
      isRegistryKey cfg r = false →
      isRegistryKey cfg (normalizeAlias cfg.aliases r) = true →
      resolve cfg r = .ok (normalizeAlias cfg.aliases r)) ∧
    (∀ (cfg : TokenizerConfig) (r f : String),
      isRegistryKey cfg r = false →
      isRegistryKey cfg (normalizeAlias cfg.aliases r) = false →
      cfg.fallback = some f → isRegistryKey cfg f = true →
      resolve cfg r = .ok f) ∧
    (∀ (cfg : TokenizerConfig) (r : String),
      isRegistryKey cfg r = false →
      isRegistryKey cfg (normalizeAlias cfg.aliases r) = false →
      cfg.fallback = none → resolve cfg r = .error .UnknownModel) ∧
    resolve cfgFallbackTiny "llama3.2" = .ok "llama-3.2" ∧
    resolve cfgFallbackTiny "phi3" = .ok "phi-3" ∧
    resolve cfgFallbackTiny "nonexistent-model" = .ok "tiny" ∧
    resolve cfgFallbackTiny "granite-embedding-30m" = .ok "granite-embedding-30m" :=
  ⟨resolve_key, resolve_aliased, resolve_fallback_key, resolve_no_fallback,
   rfl, rfl, rfl, rfl⟩

theorem resolve_pipeline_witness :
    resolve cfgFallbackTiny "tiny" = .ok "tiny" :=
  resolve_pipeline.1 cfgFallbackTiny "tiny" (by decide)

/-- C6: for every resolvable model `m` whose engine loads, `Tokenize(m,
"")` succeeds with a zero-length token sequence and `CountTokens(m, "")`
succeeds with 0. -/
theorem tokenize_empty_text (cfg : TokenizerConfig)
    (load : String → Option Engine) (m c : String) (e : Engine)
    (h1 : resolve cfg m = .ok c) (h2 : load c = some e) :
    Tokenize cfg load m [] = .ok [] ∧ CountTokens cfg load m [] = .ok 0 := by
  have ht : Tokenize cfg load m [] = .ok [] := by
    rw [Tokenize_resolved cfg load m c [] h1, h2]
    rfl
  refine ⟨ht, ?_⟩
  unfold CountTokens
  rw [ht]
  rfl

theorem tokenize_empty_text_witness :
    Tokenize cfgNoFallback demoLoad "tiny" [] = .ok [] ∧
    CountTokens cfgNoFallback demoLoad "tiny" [] = .ok 0 :=
  tokenize_empty_text cfgNoFallback demoLoad "tiny" "tiny" demoEngine rfl rfl

/-- C8: the per-key cache state machine permits exactly the transitions
`NotLoaded → Loading`, `Loading → Loaded`, `Loading → Failed` and the
retry `Failed → Loading`; consequently a key left `Failed` by a load
failure is not poisoned — a later request can reach `Loaded` from
`Failed`. -/
theorem cache_retry_transitions :
    (∀ s s' : CacheState, CacheStep s s' ↔
      ((s = .NotLoaded ∧ s' = .Loading) ∨ (s = .Loading ∧ s' = .Loaded) ∨
       (s = .Loading ∧ s' = .Failed) ∨ (s = .Failed ∧ s' = .Loading))) ∧
    Relation.ReflTransGen CacheStep .Failed .Loaded := by
  constructor
  · intro s s'
    constructor
    · intro h
      cases h <;> simp
    · intro h
      rcases h with ⟨h1, h2⟩ | ⟨h1, h2⟩ | ⟨h1, h2⟩ | ⟨h1, h2⟩ <;> subst h1 <;> subst h2
      · exact CacheStep.startLoad
      · exact CacheStep.loadOk
      · exact CacheStep.loadFail
      · exact CacheStep.retry
  · exact Relation.ReflTransGen.head CacheStep.retry
      (Relation.ReflTransGen.single CacheStep.loadOk)

theorem cache_retry_transitions_witness : CacheStep .Failed .Loading :=
  (cache_retry_transitions.1 .Failed .Loading).mpr
    (Or.inr (Or.inr (Or.inr ⟨rfl, rfl⟩)))

/-- C10: every successful response of the HTTP `/tokenize` endpoint has
`Count` equal to the length of its `Tokens` field. -/
theorem tokenize_endpoint_count (result : Except TokenizerError (List Int))
    (resp : tokenizeResponse) (h : handleTokenize result = some resp) :
    resp.Count = (resp.Tokens.length : Int) := by
  cases result with
  | error e => simp [handleTokenize] at h
  | ok tokens =>
    simp only [handleTokenize, Option.some.injEq] at h
    subst h
    rfl

theorem tokenize_endpoint_count_witness :
    ({ Tokens := [7, 8, 9], Count := 3 } : tokenizeResponse).Count =
      ((({ Tokens := [7, 8, 9], Count := 3 } : tokenizeResponse).Tokens.length : Nat) : Int) :=
  tokenize_endpoint_count (.ok [7, 8, 9]) { Tokens := [7, 8, 9], Count := 3 } rfl

/-- An engine for witnesses that answers one token per chunk, the chunk
length. -/
def lengthEngine : Engine := fun s => some [(s.length : Int)]

/-- An engine for witnesses that rejects every chunk. -/
def rejectEngine : Engine := fun _ => none

/-- A loader for witnesses whose engines reject every chunk. -/
def rejectLoad : String → Option Engine := fun _ => some rejectEngine

theorem lastSpace_replicate_a (n : Nat) : lastSpace (List.replicate n 'a') = none := by
  induction n with
  | zero => rfl
  | succ n ih =>
    rw [List.replicate_succ]
    simp only [lastSpace, ih]
    decide

theorem chunkSplit_replicate_a (n : Nat) :
    chunkSplit (List.replicate n 'a') = maxChunkSize := by
  unfold chunkSplit
  rw [List.take_replicate, lastSpace_replicate_a]

theorem chunkText_replicate_16385 :
    chunkText (List.replicate 16385 'a') =
      [List.replicate 16384 'a', List.replicate 1 'a'] := by
  rw [chunkText]
  have h1 : ¬ (List.replicate (16385 : Nat) 'a').length ≤ maxChunkSize := by
    rw [List.length_replicate]
    decide
  rw [if_neg h1]
  simp only [chunkSplit_replicate_a, List.take_replicate, List.drop_replicate]
  have h2 : min maxChunkSize 16385 = 16384 := by decide
  have h3 : (16385 : Nat) - maxChunkSize = 1 := by decide
  rw [h2, h3]
  have h4 : chunkText (List.replicate 1 'a') = [List.replicate 1 'a'] := by
    rw [chunkText]
    rw [if_pos (show (List.replicate (1 : Nat) 'a').length ≤ maxChunkSize by decide)]
  rw [h4]

/-- C5: for every text beyond the fixed safe processing ceiling,
`tokenizeAll` splits the text into ordered, non-overlapping chunks each
within the ceiling whose concatenation is the original text, tokenizes
each chunk independently in original order, and returns the concatenation
of the per-chunk token-id sequences in that order; texts within the
ceiling are tokenized directly in one engine call. -/
theorem chunked_tokenization (engine : Engine) (text : List Char) :
    (maxChunkSize < text.length →
      (chunkText text).flatten = text ∧
      (∀ c ∈ chunkText text, c.length ≤ maxChunkSize) ∧
      (∀ idss, chunksTokens engine (chunkText text) = some idss →
        List.Forall₂ (fun c ids => engine c = some ids) (chunkText text) idss ∧
        tokenizeAll engine text = .ok idss.flatten)) ∧
    (text ≠ [] → text.length ≤ maxChunkSize →
      ∀ ids, engine text = some ids → tokenizeAll engine text = .ok ids) := by
  constructor
  · intro h
    refine ⟨chunkText_flatten text, chunkText_mem_le text, ?_⟩
    intro idss hidss
    exact ⟨chunksTokens_forall2 engine _ idss hidss,
      tokenizeAll_chunked engine text idss h hidss⟩
  · intro h0 h1 ids h2
    exact tokenizeAll_short engine text ids h0 h1 h2

theorem chunked_tokenization_witness :
    maxChunkSize < (List.replicate 16385 'a').length ∧
    tokenizeAll lengthEngine (List.replicate 16385 'a') = .ok [16384, 1] := by
  have hlen : maxChunkSize < (List.replicate (16385 : Nat) 'a').length := by
    rw [List.length_replicate]
    decide
  have hchunks : chunksTokens lengthEngine (chunkText (List.replicate 16385 'a')) =
      some [[16384], [1]] := by
    rw [chunkText_replicate_16385]
    simp only [chunksTokens, lengthEngine, List.length_replicate]
    norm_num
  refine ⟨hlen, ?_⟩
  have h := ((chunked_tokenization lengthEngine (List.replicate 16385 'a')).1 hlen).2.2
    [[16384], [1]] hchunks
  exact h.2

/-- C7: when chunked tokenization is in play and the engine fails on any
one chunk, the whole `Tokenize`/`CountTokens` call fails with
`EngineFailure`; no partial token sequence and no partial count reaches
the caller. -/
theorem chunk_failure_aborts (cfg : TokenizerConfig)
    (load : String → Option Engine) (m c : String) (engine : Engine)
    (text : List Char)
    (hr : resolve cfg m = .ok c) (hl : load c = some engine)
    (hlen : maxChunkSize < text.length)
    (hfail : ∃ ch ∈ chunkText text, engine ch = none) :
    Tokenize cfg load m text = .error .EngineFailure ∧
    CountTokens cfg load m text = .error .EngineFailure := by
  have hnone := chunksTokens_none_of_mem engine (chunkText text) hfail
  have ht : Tokenize cfg load m text = .error .EngineFailure := by
    rw [Tokenize_resolved cfg load m c text hr, hl]
    exact tokenizeAll_chunked_fail engine text hlen hnone
  refine ⟨ht, ?_⟩
  unfold CountTokens
  rw [ht]
  rfl

theorem chunk_failure_aborts_witness :
    Tokenize cfgNoFallback rejectLoad "tiny" (List.replicate 16385 'a') =
      .error .EngineFailure ∧
    CountTokens cfgNoFallback rejectLoad "tiny" (List.replicate 16385 'a') =
      .error .EngineFailure := by
  have hlen : maxChunkSize < (List.replicate (16385 : Nat) 'a').length := by
    rw [List.length_replicate]
    decide
  have hfail : ∃ ch ∈ chunkText (List.replicate 16385 'a'), rejectEngine ch = none := by
    rcases List.exists_mem_of_ne_nil (chunkText (List.replicate 16385 'a'))
      (chunkText_ne_nil _) with ⟨ch, hch⟩
    exact ⟨ch, hch, rfl⟩
  exact chunk_failure_aborts cfgNoFallback rejectLoad "tiny" "tiny" rejectEngine
    (List.replicate 16385 'a') rfl rfl hlen hfail

/-- C9: the chunked tokenizer's fixed safe processing ceiling is 16 KiB
(`16*1024` bytes), shared by every model: any nonempty input of at most
16384 units is tokenized in a single engine call, and any longer input is
split into chunks, each at most 16384 units, that concatenate back to the
input. -/
theorem ceiling_is_16k :
    maxChunkSize = 16 * 1024 ∧
    (∀ (e : Engine) (t : List Char) (ids : List Int),
      t ≠ [] → t.length ≤ 16 * 1024 → e t = some ids →
      tokenizeAll e t = .ok ids) ∧
    (∀ t : List Char, 16 * 1024 < t.length →
      (chunkText t).flatten = t ∧ ∀ c ∈ chunkText t, c.length ≤ 16 * 1024) := by
  refine ⟨rfl, ?_, ?_⟩
  · intro e t ids h0 h1 h2
    exact tokenizeAll_short e t ids h0 h1 h2
  · intro t ht
    exact ⟨chunkText_flatten t, chunkText_mem_le t⟩

theorem ceiling_is_16k_witness :
    tokenizeAll demoEngine ['o', 'k'] = .ok [111, 107] :=
  ceiling_is_16k.2.1 demoEngine ['o', 'k'] [111, 107] (by decide) (by decide) rfl
